import Mathlib

/-!
Verification of the skills data pipeline in
src/assets/js/skills-manager.js (class SkillsManager).

The JavaScript is shallowly embedded: skill records become a structure,
the category map becomes an association list preserving insertion order,
JSON values become an inductive type, localStorage becomes explicit state,
and the asynchronous fetch is modelled by an outcome datatype.  JS machine
numbers occurring here are integers well below 2^53, so they are modelled
exactly by Int / Nat; Math.round x is modelled as the floor of x + 1/2 on
rationals, which agrees with JS semantics on these inputs.
-/

/-- A skill record, as stored in the skills dataset: shape
`{ name, level, icon, years?, description? }`.  Absent optional JS fields
are `none`. -/
structure Skill where
  name : String
  level : Int
  icon : String
  years : Option Nat := none
  description : Option String := none

/-- The dataset held in `this.skillsData`: an object with a single `skills`
property mapping category keys to arrays of records.  A JS object is
modelled as an association list in insertion order. -/
structure SkillsData where
  skills : List (String × List Skill)

/-- JSON values, the results of JSON.parse / arguments of JSON.stringify. -/
inductive Json where
  | null
  | bool (b : Bool)
  | num (n : Int)
  | str (s : String)
  | arr (elems : List Json)
  | obj (fields : List (String × Json))

/-- JS object property read `fields[key]`: first matching key. -/
def jLookup (key : String) : List (String × Json) → Option Json
  | [] => none
  | (k, v) :: rest => if k = key then some v else jLookup key rest

/-- JSON.stringify of one skill record: fields in insertion order, with
absent optional fields omitted (stringify drops undefined properties). -/
def encodeSkill (s : Skill) : Json :=
  Json.obj ([("name", Json.str s.name), ("level", Json.num s.level),
             ("icon", Json.str s.icon)]
    ++ (match s.years with
        | some y => [("years", Json.num (y : Int))]
        | none => [])
    ++ (match s.description with
        | some d => [("description", Json.str d)]
        | none => []))

/-- JSON.stringify of the whole dataset `{ skills: { cat: [...], ... } }`. -/
def encodeSkillsData (data : SkillsData) : Json :=
  Json.obj [("skills",
    Json.obj (data.skills.map (fun p => (p.1, Json.arr (p.2.map encodeSkill)))))]

/-- Reads a parsed JSON value back as a string field. -/
def asStr : Option Json → Option String
  | some (Json.str s) => some s
  | _ => none

/-- Reads a parsed JSON value back as a numeric field. -/
def asNum : Option Json → Option Int
  | some (Json.num n) => some n
  | _ => none

/-- Reads an optional nonnegative-integer `years` field (absent is valid). -/
def decodeYears : Option Json → Option (Option Nat)
  | none => some none
  | some (Json.num n) => some (some n.toNat)
  | some _ => none

/-- Reads an optional string `description` field (absent is valid). -/
def decodeDescription : Option Json → Option (Option String)
  | none => some none
  | some (Json.str s) => some (some s)
  | some _ => none

/-- Interpretation of a parsed JSON value as a skill record: the inverse
reading of `encodeSkill`, used to state that a structurally equal dataset
comes back from persistence. -/
def decodeSkill : Json → Option Skill
  | Json.obj fs =>
    match asStr (jLookup "name" fs), asNum (jLookup "level" fs),
          asStr (jLookup "icon" fs), decodeYears (jLookup "years" fs),
          decodeDescription (jLookup "description" fs) with
    | some name, some level, some icon, some years, some description =>
        some { name := name, level := level, icon := icon,
               years := years, description := description }
    | _, _, _, _, _ => none
  | _ => none

/-- Interpretation of a parsed JSON array as a list of skill records. -/
def decodeSkills : List Json → Option (List Skill)
  | [] => some []
  | j :: rest =>
    match decodeSkill j, decodeSkills rest with
    | some s, some l => some (s :: l)
    | _, _ => none

/-- Interpretation of a parsed JSON value as one category's array. -/
def decodeCatValue : Json → Option (List Skill)
  | Json.arr elems => decodeSkills elems
  | _ => none

/-- Interpretation of a parsed JSON object as the category map. -/
def decodeCats : List (String × Json) → Option (List (String × List Skill))
  | [] => some []
  | (k, v) :: rest =>
    match decodeCatValue v, decodeCats rest with
    | some l, some tail => some ((k, l) :: tail)
    | _, _ => none

/-- Interpretation of a parsed JSON value as a whole dataset. -/
def decodeSkillsData : Json → Option SkillsData
  | Json.obj fs =>
    match jLookup "skills" fs with
    | some (Json.obj cats) =>
      match decodeCats cats with
      | some l => some { skills := l }
      | none => none
    | _ => none
  | _ => none

/-- The hardcoded dataset returned by `getFallbackSkillsData`
(src/assets/js/skills-manager.js lines 41-66), transcribed verbatim. -/
def getFallbackSkillsData : SkillsData :=
  { skills :=
    [ ("frontend",
       [ { name := "HTML5", level := 95, icon := "🔧", years := some 5 },
         { name := "CSS3", level := 90, icon := "🎨", years := some 5 },
         { name := "JavaScript", level := 92, icon := "⚡", years := some 4 } ]),
      ("backend",
       [ { name := "Node.js", level := 88, icon := "🟢", years := some 3 },
         { name := "Python", level := 85, icon := "🐍", years := some 4 },
         { name := "MongoDB", level := 80, icon := "🍃", years := some 3 } ]),
      ("tools",
       [ { name := "Git", level := 90, icon := "📝", years := some 4 },
         { name := "Docker", level := 75, icon := "🐳", years := some 2 },
         { name := "AWS", level := 70, icon := "☁️", years := some 2 } ]),
      ("softSkills",
       [ { name := "Problem Solving", level := 95, icon := "🧩" },
         { name := "Team Collaboration", level := 90, icon := "👥" },
         { name := "Communication", level := 88, icon := "💬" } ]) ] }

/-- Outcome of `fetch('data/skills.json')` followed by `response.json()`:
the promise rejects, or it resolves with an ok flag, a status, and either a
parsed body or `none` when the body fails to parse. -/
inductive FetchOutcome where
  | reject
  | resolved (ok : Bool) (status : Nat) (body : Option Json)

/-- True exactly when the load attempt fails: network rejection, non-success
status (`!response.ok` throws `HTTP status`), or body parse failure. -/
def fetchFailed : FetchOutcome → Bool
  | FetchOutcome.reject => true
  | FetchOutcome.resolved ok _ body => !ok || body.isNone

/-- `loadSkillsData` (lines 28-39): the value assigned to `this.skillsData`.
Any throw inside the try block is caught and the fallback dataset is
substituted; the method itself never rejects. -/
def loadSkillsData : FetchOutcome → Json
  | FetchOutcome.reject => encodeSkillsData getFallbackSkillsData
  | FetchOutcome.resolved ok _ body =>
    if ok then
      match body with
      | some j => j
      | none => encodeSkillsData getFallbackSkillsData
    else
      encodeSkillsData getFallbackSkillsData

/-- Number of records across all categories of a dataset. -/
def totalRecords (data : SkillsData) : Nat :=
  (data.skills.map (fun p => p.2.length)).sum

/-- A value stored under the `portfolio-skills` localStorage key: either a
string that parses as the JSON value `j`, or a string that is not valid
JSON (`JSON.parse` throws on it). -/
inductive StoreVal where
  | json (j : Json)
  | invalid

/-- The mutable state of a `SkillsManager` instance together with the
localStorage slot it uses: `this.skillsData` and the value stored under
the `portfolio-skills` key (`none` when the key is absent). -/
structure ManagerState where
  skillsData : Option SkillsData
  store : Option StoreVal

/-- `saveToLocalStorage` (lines 353-359): the store slot after
`localStorage.setItem('portfolio-skills', JSON.stringify(this.skillsData))`
succeeds. -/
def saveToLocalStorage (data : SkillsData) : Option StoreVal :=
  some (StoreVal.json (encodeSkillsData data))

/-- `loadFromLocalStorage` (lines 361-372) as a function of the stored
value: returns the boolean result together with the value assigned to
`this.skillsData` (`none` when no assignment happens).  Key absent: the
`if (saved)` guard fails and the method returns false.  Invalid JSON:
`JSON.parse` throws, the catch block logs, and the method returns false.
The method never throws. -/
def loadFromLocalStorage : Option StoreVal → Bool × Option Json
  | none => (false, none)
  | some (StoreVal.json j) => (true, some j)
  | some StoreVal.invalid => (false, none)

/-- `Math.min(100, Math.max(0, newLevel))` from line 341. -/
def clampLevel (newLevel : Int) : Int :=
  min 100 (max 0 newLevel)

/-- JS property read `this.skillsData.skills[category]`. -/
def getAssoc (key : String) : List (String × List Skill) → Option (List Skill)
  | [] => none
  | (k, v) :: rest => if k = key then some v else getAssoc key rest

/-- Replaces the array stored under `key`, modelling that the in-place
category array mutation is visible through the containing object. -/
def setAssoc (key : String) (newVal : List Skill) :
    List (String × List Skill) → List (String × List Skill)
  | [] => []
  | (k, v) :: rest =>
    if k = key then (k, newVal) :: rest else (k, v) :: setAssoc key newVal rest

/-- `array.find(s => s.name === skillName)` from line 335. -/
def findSkill (skillName : String) : List Skill → Option Skill
  | [] => none
  | s :: rest => if s.name = skillName then some s else findSkill skillName rest

/-- The category array after `skill.level = Math.min(100, Math.max(0,
newLevel))` mutates the record that `find` located; `none` when `find`
located nothing. -/
def updateFirstLevel (skillName : String) (newLevel : Int) :
    List Skill → Option (List Skill)
  | [] => none
  | s :: rest =>
    if s.name = skillName then
      some ({ s with level := clampLevel newLevel } :: rest)
    else
      (updateFirstLevel skillName newLevel rest).map (fun l => s :: l)

/-- The level of the record named `skillName` in `category`, read through
the same lookups the update path uses. -/
def getSkillLevel (st : ManagerState) (category skillName : String) : Option Int :=
  match st.skillsData with
  | none => none
  | some data =>
    match getAssoc category data.skills with
    | none => none
    | some catSkills => (findSkill skillName catSkills).map (fun s => s.level)

/-- `updateSkillLevel` (lines 329-351).  Missing data or category: log and
return false.  Record not found: log and return false.  Otherwise the
record's level is clamped into [0,100], the dataset is persisted via
`saveToLocalStorage`, the view is re-rendered, and true is returned. -/
def updateSkillLevel (st : ManagerState) (category skillName : String)
    (newLevel : Int) : Bool × ManagerState :=
  match st.skillsData with
  | none => (false, st)
  | some data =>
    match getAssoc category data.skills with
    | none => (false, st)
    | some catSkills =>
      match updateFirstLevel skillName newLevel catSkills with
      | none => (false, st)
      | some newCat =>
        let newData : SkillsData := { skills := setAssoc category newCat data.skills }
        (true, { skillsData := some newData, store := saveToLocalStorage newData })

/-- `getProficiencyLabel` (lines 151-156). -/
def getProficiencyLabel (level : Int) : String :=
  if level ≥ 90 then "Expert"
  else if level ≥ 75 then "Advanced"
  else if level ≥ 60 then "Intermediate"
  else "Beginner"

/-- `getProficiencyClass` (lines 144-149). -/
def getProficiencyClass (level : Int) : String :=
  if level ≥ 90 then "skill--expert"
  else if level ≥ 75 then "skill--advanced"
  else if level ≥ 60 then "skill--intermediate"
  else "skill--beginner"

/-- The contribution of one record to `totalYears` (lines 264-266):
`if (skill.years) totalYears += skill.years` — a JS truthiness test, so a
defined `years` of 0 adds nothing, exactly like an absent field. -/
def yearsAddend : Option Nat → Nat
  | some y => if y = 0 then 0 else y
  | none => 0

/-- `Object.values(this.skillsData.skills)` flattened by the nested
`forEach` loops of `calculateAndDisplayStats`: all records in category
insertion order. -/
def allSkills : List (String × List Skill) → List Skill
  | [] => []
  | (_, l) :: rest => l ++ allSkills rest

/-- The three aggregate statistics written to the stat display elements. -/
structure AggregateStats where
  totalSkills : Nat
  averageProficiency : Option Int
  totalYears : Nat

/-- The pure aggregation inside `calculateAndDisplayStats` (lines 251-292):
counts records, sums levels, sums truthy `years`, and computes
`Math.round(totalProficiency / countedSkills)` only under the
`countedSkills > 0` guard (modelled as `none` when the guard fails).
`Math.round x` is the floor of `x + 1/2`. -/
def computeStats (data : SkillsData) : AggregateStats :=
  let skills := allSkills data.skills
  let totalSkills := skills.length
  let totalProficiency : Int := (skills.map (fun s => s.level)).sum
  let totalYears : Nat := (skills.map (fun s => yearsAddend s.years)).sum
  let countedSkills := skills.length
  { totalSkills := totalSkills
    averageProficiency :=
      if 0 < countedSkills then
        some ⌊(totalProficiency : ℚ) / (countedSkills : ℚ) + 1 / 2⌋
      else
        none
    totalYears := totalYears }

/-- The years span of the template (line 111):
`${skill.years ? `<span ...>${skill.years} ${skill.years === 1 ? 'year' : 'years'}</span>` : ''}`.
JS truthiness: a defined 0 produces the empty alternative. -/
def yearsFragment : Option Nat → String
  | some y =>
    if y = 0 then ""
    else
      "<span class=\"skill__years\">"
        ++ ((toString y ++ (" " ++ (if y = 1 then "year" else "years")))
        ++ "</span>")
  | none => ""

/-- The description paragraph of the template (line 116); an empty string is
falsy in JS and also produces the empty alternative. -/
def descriptionFragment : Option String → String
  | some d =>
    if d = "" then ""
    else "<p class=\"skill__description\">" ++ (d ++ "</p>")
  | none => ""

/-- `createSkillElement` (lines 101-125): the template literal with every
interpolation spliced in, grouped so that the years fragment and the
description fragment appear as explicit sub-strings. -/
def createSkillElement (skill : Skill) : String :=
  let proficiencyClass := getProficiencyClass skill.level
  ("\n            <div class=\"skill " ++ proficiencyClass
    ++ "\" data-skill-level=\"" ++ toString skill.level
    ++ "\">\n                <div class=\"skill__header\">\n                    <span class=\"skill__icon\">"
    ++ skill.icon
    ++ "</span>\n                    <div class=\"skill__info\">\n                        <div class=\"skill__name-wrapper\">\n                            <span class=\"skill__name\">"
    ++ skill.name
    ++ "</span>\n                            ")
  ++ (yearsFragment skill.years
  ++ ("\n                        </div>\n                        <span class=\"skill__percentage\">"
    ++ toString skill.level
    ++ "%</span>\n                    </div>\n                </div>\n                "
  ++ (descriptionFragment skill.description
  ++ ("\n                <div class=\"skill__bar\">\n                    <div class=\"skill__progress\" data-progress=\""
    ++ toString skill.level
    ++ "\" style=\"width: 0%\"></div>\n                </div>\n                <div class=\"skill__level-indicator\">\n                    <span class=\"skill__level-label\">"
    ++ getProficiencyLabel skill.level
    ++ "</span>\n                </div>\n            </div>\n        "))))

/-- Character-list test: does `hay` start with `needle`? -/
def leadsList : List Char → List Char → Bool
  | [], _ => true
  | _ :: _, [] => false
  | a :: as, b :: bs => a == b && leadsList as bs

/-- Character-list test: does `needle` occur contiguously inside `hay`? -/
def containsList (needle : List Char) : List Char → Bool
  | [] => leadsList needle []
  | c :: rest => leadsList needle (c :: rest) || containsList needle rest

/-- Substring occurrence on strings, used to state what a rendered DOM
fragment displays. -/
def strContains (hay needle : String) : Bool :=
  containsList needle.data hay.data

/-- A manager state holding the fallback dataset with nothing persisted yet. -/
def fallbackState : ManagerState :=
  { skillsData := some getFallbackSkillsData, store := none }

/-- A dataset whose four categories are all empty. -/
def emptySkillsData : SkillsData :=
  { skills := [("frontend", []), ("backend", []), ("tools", []), ("softSkills", [])] }

/-- The worked example record from the specification:
`{name:"Git", level:90, years:4}` with the fallback icon. -/
def gitSkill : Skill :=
  { name := "Git", level := 90, icon := "📝", years := some 4 }

/-- A record whose `years` field is defined and equal to 0. -/
def zeroYearsSkill : Skill :=
  { name := "Sample", level := 50, icon := "🔧", years := some 0 }

/-- A record with two years of experience, to exercise the plural label. -/
def dockerSkill : Skill :=
  { name := "Docker", level := 75, icon := "🐳", years := some 2 }

/-- The data-model invariant: every record's level lies in [0,100]. -/
def levelsInRange (data : SkillsData) : Prop :=
  ∀ p ∈ data.skills, ∀ s ∈ p.2, 0 ≤ s.level ∧ s.level ≤ 100

theorem strData_append (s t : String) : (s ++ t).data = s.data ++ t.data := by
  cases s
  cases t
  rfl

theorem leadsList_self_append (n q : List Char) : leadsList n (n ++ q) = true := by
  induction n with
  | nil => rfl
  | cons a as ih => simp [leadsList, ih]

theorem containsList_nil_needle (hay : List Char) : containsList [] hay = true := by
  induction hay with
  | nil => rfl
  | cons c rest ih => simp [containsList, leadsList]

theorem containsList_self_append (n q : List Char) :
    containsList n (n ++ q) = true := by
  cases n with
  | nil => exact containsList_nil_needle q
  | cons a as =>
    have h := leadsList_self_append (a :: as) q
    simp only [List.cons_append] at h
    simp [containsList, h]

theorem containsList_append_left (a b n : List Char)
    (h : containsList n b = true) : containsList n (a ++ b) = true := by
  induction a with
  | nil => exact h
  | cons c cs ih => simp [containsList, ih]

theorem strContains_append_left (a b n : String)
    (h : strContains b n = true) : strContains (a ++ b) n = true := by
  unfold strContains at h ⊢
  rw [strData_append]
  exact containsList_append_left a.data b.data n.data h

theorem strContains_self_append (n q : String) : strContains (n ++ q) n = true := by
  unfold strContains
  rw [strData_append]
  exact containsList_self_append n.data q.data

theorem decodeSkill_encodeSkill (s : Skill) : decodeSkill (encodeSkill s) = some s := by
  cases s with
  | mk name level icon years description => cases years <;> cases description <;> rfl

theorem decodeSkills_map_encodeSkill (l : List Skill) :
    decodeSkills (l.map encodeSkill) = some l := by
  induction l with
  | nil => rfl
  | cons s rest ih =>
    simp only [List.map_cons, decodeSkills, decodeSkill_encodeSkill, ih]

theorem decodeCats_map_encode (l : List (String × List Skill)) :
    decodeCats (l.map (fun p => (p.1, Json.arr (p.2.map encodeSkill)))) = some l := by
  induction l with
  | nil => rfl
  | cons p rest ih =>
    obtain ⟨k, v⟩ := p
    simp only [List.map_cons, decodeCats, decodeCatValue,
      decodeSkills_map_encodeSkill, ih]

theorem decodeSkillsData_encodeSkillsData (S : SkillsData) :
    decodeSkillsData (encodeSkillsData S) = some S := by
  obtain ⟨skills⟩ := S
  simp only [encodeSkillsData, decodeSkillsData, jLookup, if_pos,
    decodeCats_map_encode]

/-- C4: persisting a dataset and then restoring yields the same dataset:
`loadFromLocalStorage` after `saveToLocalStorage` reports found and hands
back exactly the serialized JSON value, and that value reads back as the
original dataset — `restore(persist(S)) = S` for every valid dataset
(validity is enforced by the `SkillsData` type). -/
theorem persist_restore_roundTrip (S : SkillsData) :
    loadFromLocalStorage (saveToLocalStorage S) = (true, some (encodeSkillsData S)) ∧
    decodeSkillsData (encodeSkillsData S) = some S :=
  ⟨rfl, decodeSkillsData_encodeSkillsData S⟩

/-- C1: on every failed fetch outcome (rejection, non-success status, or
parse failure) `loadSkillsData` resolves — it is a total function rather
than a throwing one — with the hardcoded fallback dataset, which is
populated: it is not `null`, decodes to the fallback dataset, holds a
positive number of records, and every category is nonempty. -/
theorem loadSkillsData_failure_fallback (o : FetchOutcome)
    (h : fetchFailed o = true) :
    loadSkillsData o = encodeSkillsData getFallbackSkillsData ∧
    decodeSkillsData (loadSkillsData o) = some getFallbackSkillsData ∧
    loadSkillsData o ≠ Json.null ∧
    0 < totalRecords getFallbackSkillsData ∧
    (∀ p ∈ getFallbackSkillsData.skills, 0 < p.2.length) := by
  have hload : loadSkillsData o = encodeSkillsData getFallbackSkillsData := by
    cases o with
    | reject => rfl
    | resolved ok status body =>
      cases ok with
      | false => rfl
      | true =>
        cases body with
        | none => rfl
        | some j => simp [fetchFailed] at h
  refine ⟨hload, ?_, ?_, by decide, by decide⟩
  · rw [hload]
    exact decodeSkillsData_encodeSkillsData _
  · rw [hload]
    intro hnull
    exact Json.noConfusion hnull

theorem loadSkillsData_failure_fallback_witness :
    fetchFailed FetchOutcome.reject = true ∧
    loadSkillsData FetchOutcome.reject = encodeSkillsData getFallbackSkillsData ∧
    0 < totalRecords getFallbackSkillsData := by
  have h := loadSkillsData_failure_fallback FetchOutcome.reject rfl
  exact ⟨rfl, h.1, h.2.2.2.1⟩

/-- C5: for every level in [0,100] the proficiency label is exactly one of
Expert / Advanced / Intermediate / Beginner, with inclusive lower
boundaries at 90, 75 and 60. -/
theorem proficiencyLabel_partition (L : Int) (h0 : 0 ≤ L) (h1 : L ≤ 100) :
    (getProficiencyLabel L = "Expert" ∨ getProficiencyLabel L = "Advanced" ∨
      getProficiencyLabel L = "Intermediate" ∨ getProficiencyLabel L = "Beginner") ∧
    (90 ≤ L → getProficiencyLabel L = "Expert") ∧
    (75 ≤ L → L ≤ 89 → getProficiencyLabel L = "Advanced") ∧
    (60 ≤ L → L ≤ 74 → getProficiencyLabel L = "Intermediate") ∧
    (L < 60 → getProficiencyLabel L = "Beginner") := by
  unfold getProficiencyLabel
  refine ⟨?_, ?_, ?_, ?_, ?_⟩ <;> intros <;> split_ifs <;>
    first | rfl | (exfalso; omega) | simp

theorem proficiencyLabel_partition_witness :
    getProficiencyLabel 90 = "Expert" ∧ getProficiencyLabel 75 = "Advanced" ∧
    getProficiencyLabel 60 = "Intermediate" ∧ getProficiencyLabel 59 = "Beginner" := by
  refine ⟨?_, ?_, ?_, ?_⟩
  · exact (proficiencyLabel_partition 90 (by decide) (by decide)).2.1 (by decide)
  · exact (proficiencyLabel_partition 75 (by decide) (by decide)).2.2.1 (by decide) (by decide)
  · exact (proficiencyLabel_partition 60 (by decide) (by decide)).2.2.2.1 (by decide) (by decide)
  · exact (proficiencyLabel_partition 59 (by decide) (by decide)).2.2.2.2 (by decide)

/-- C7: on a dataset with zero records the aggregation yields zero counts
and no average — the `countedSkills > 0` guard keeps the division from
happening, and being a total Lean function it cannot throw. -/
theorem computeStats_empty (data : SkillsData) (h : allSkills data.skills = []) :
    computeStats data =
      { totalSkills := 0, averageProficiency := none, totalYears := 0 } := by
  simp [computeStats, h]

theorem computeStats_empty_witness :
    computeStats emptySkillsData =
      { totalSkills := 0, averageProficiency := none, totalYears := 0 } :=
  computeStats_empty emptySkillsData rfl

/-- C9 counterexample: the key-absent store and the invalid-JSON store
produce identical results — the caller receives `false` with no dataset in
both cases, so the operation does not distinguish the not-found case from
the invalid case to the caller as the claim states. -/
theorem loadFromLocalStorage_collapse :
    loadFromLocalStorage none = (false, none) ∧
    loadFromLocalStorage (some StoreVal.invalid) = (false, none) ∧
    loadFromLocalStorage none = loadFromLocalStorage (some StoreVal.invalid) :=
  ⟨rfl, rfl, rfl⟩

/-- C9 (amended): `loadFromLocalStorage` never raises (it is total and
absorbs the parse error internally); it returns `true` with the parsed
value exactly when a parseable value is present, and returns `false` both
when the key is absent and when the value is invalid JSON — those two
cases are not distinguished to the caller. -/
theorem loadFromLocalStorage_outcomes (store : Option StoreVal) :
    ((loadFromLocalStorage store).1 = true ↔
      ∃ j, store = some (StoreVal.json j)) ∧
    ((loadFromLocalStorage store).1 = false ↔
      store = none ∨ store = some StoreVal.invalid) ∧
    (∀ j, store = some (StoreVal.json j) →
      loadFromLocalStorage store = (true, some j)) := by
  rcases store with _ | v
  · simp [loadFromLocalStorage]
  · cases v with
    | json j =>
      refine ⟨?_, ?_, ?_⟩
      · simp [loadFromLocalStorage]
      · simp [loadFromLocalStorage]
      · intro j' hj
        cases hj
        rfl
    | invalid => simp [loadFromLocalStorage]

theorem loadFromLocalStorage_outcomes_witness :
    loadFromLocalStorage (some (StoreVal.json Json.null)) = (true, some Json.null) :=
  (loadFromLocalStorage_outcomes (some (StoreVal.json Json.null))).2.2 Json.null rfl

theorem clampLevel_bounds (n : Int) : 0 ≤ clampLevel n ∧ clampLevel n ≤ 100 := by
  unfold clampLevel
  exact ⟨le_min (by norm_num) (le_max_left 0 n), min_le_left 100 _⟩

theorem getAssoc_setAssoc (key : String) (v : List Skill)
    (l : List (String × List Skill)) (w : List Skill)
    (h : getAssoc key l = some w) :
    getAssoc key (setAssoc key v l) = some v := by
  induction l with
  | nil => simp [getAssoc] at h
  | cons p rest ih =>
    obtain ⟨k, val⟩ := p
    by_cases hk : k = key
    · simp [getAssoc, setAssoc, hk]
    · simp only [getAssoc, setAssoc, if_neg hk] at h ⊢
      exact ih h

theorem mem_setAssoc (key : String) (v : List Skill)
    (l : List (String × List Skill)) (p : String × List Skill)
    (hp : p ∈ setAssoc key v l) : p.2 = v ∨ p ∈ l := by
  induction l with
  | nil => simp [setAssoc] at hp
  | cons q rest ih =>
    obtain ⟨k, val⟩ := q
    by_cases hk : k = key
    · simp only [setAssoc, if_pos hk] at hp
      rcases List.mem_cons.mp hp with h1 | h1
      · left; rw [h1]
      · right; exact List.mem_cons_of_mem _ h1
    · simp only [setAssoc, if_neg hk] at hp
      rcases List.mem_cons.mp hp with h1 | h1
      · right; rw [h1]; exact List.mem_cons_self _ _
      · rcases ih h1 with h2 | h2
        · left; exact h2
        · right; exact List.mem_cons_of_mem _ h2

theorem getAssoc_mem (key : String) (l : List (String × List Skill))
    (w : List Skill) (h : getAssoc key l = some w) : ∃ k, (k, w) ∈ l := by
  induction l with
  | nil => simp [getAssoc] at h
  | cons q rest ih =>
    obtain ⟨k, val⟩ := q
    by_cases hk : k = key
    · simp only [getAssoc, if_pos hk, Option.some.injEq] at h
      exact ⟨k, by rw [← h]; exact List.mem_cons_self _ _⟩
    · simp only [getAssoc, if_neg hk] at h
      obtain ⟨k', hk'⟩ := ih h
      exact ⟨k', List.mem_cons_of_mem _ hk'⟩

theorem updateFirstLevel_none (skillName : String) (newLevel : Int)
    (l : List Skill) (h : findSkill skillName l = none) :
    updateFirstLevel skillName newLevel l = none := by
  induction l with
  | nil => rfl
  | cons a rest ih =>
    by_cases ha : a.name = skillName
    · simp [findSkill, if_pos ha] at h
    · simp only [findSkill, if_neg ha] at h
      simp [updateFirstLevel, if_neg ha, ih h]

theorem updateFirstLevel_spec (skillName : String) (newLevel : Int)
    (l : List Skill) (s : Skill) (h : findSkill skillName l = some s) :
    ∃ l', updateFirstLevel skillName newLevel l = some l' ∧
      findSkill skillName l' = some { s with level := clampLevel newLevel } ∧
      ∀ t ∈ l', t.level = clampLevel newLevel ∨ t ∈ l := by
  induction l with
  | nil => simp [findSkill] at h
  | cons a rest ih =>
    by_cases ha : a.name = skillName
    · simp only [findSkill, if_pos ha, Option.some.injEq] at h
      subst h
      refine ⟨{ a with level := clampLevel newLevel } :: rest, ?_, ?_, ?_⟩
      · simp [updateFirstLevel, ha]
      · simp [findSkill, ha]
      · intro t ht
        rcases List.mem_cons.mp ht with h1 | h1
        · left; rw [h1]
        · right; exact List.mem_cons_of_mem _ h1
    · simp only [findSkill, if_neg ha] at h
      obtain ⟨l', h1, h2, h3⟩ := ih h
      refine ⟨a :: l', ?_, ?_, ?_⟩
      · simp [updateFirstLevel, if_neg ha, h1]
      · simp [findSkill, if_neg ha, h2]
      · intro t ht
        rcases List.mem_cons.mp ht with h4 | h4
        · right; rw [h4]; exact List.mem_cons_self _ _
        · rcases h3 t h4 with h5 | h5
          · left; exact h5
          · right; exact List.mem_cons_of_mem _ h5

/-- C2: when the category and record name both exist, `updateSkillLevel`
reports success and stores exactly `clamp(newLevel, 0, 100)` into the
matching record: 150 stores as 100, -10 stores as 0, an in-range value is
stored unchanged, the stored value always lies in [0,100], and the update
preserves the invariant that every record's level is in [0,100]. -/
theorem updateSkillLevel_clamps (st : ManagerState) (category skillName : String)
    (newLevel : Int) (h : (getSkillLevel st category skillName).isSome = true) :
    (updateSkillLevel st category skillName newLevel).1 = true ∧
    getSkillLevel (updateSkillLevel st category skillName newLevel).2
      category skillName = some (clampLevel newLevel) ∧
    clampLevel 150 = 100 ∧
    clampLevel (-10) = 0 ∧
    (∀ m : Int, 0 ≤ m → m ≤ 100 → clampLevel m = m) ∧
    (0 ≤ clampLevel newLevel ∧ clampLevel newLevel ≤ 100) ∧
    (∀ data, st.skillsData = some data → levelsInRange data →
      ∀ data',
        (updateSkillLevel st category skillName newLevel).2.skillsData = some data' →
        levelsInRange data') := by
  rcases hsd : st.skillsData with _ | data
  · simp only [getSkillLevel, hsd] at h
    simp at h
  rcases hga : getAssoc category data.skills with _ | catSkills
  · simp only [getSkillLevel, hsd, hga] at h
    simp at h
  simp only [getSkillLevel, hsd, hga] at h
  rcases hfs : findSkill skillName catSkills with _ | s
  · rw [hfs] at h
    simp at h
  obtain ⟨l', h1, h2, h3⟩ := updateFirstLevel_spec skillName newLevel catSkills s hfs
  have hupd : updateSkillLevel st category skillName newLevel =
      (true, { skillsData := some { skills := setAssoc category l' data.skills },
               store :=
                 saveToLocalStorage { skills := setAssoc category l' data.skills } }) := by
    simp only [updateSkillLevel, hsd, hga, h1]
  have hga' := getAssoc_setAssoc category l' data.skills catSkills hga
  refine ⟨by rw [hupd], ?_, by decide, by decide, ?_, clampLevel_bounds newLevel, ?_⟩
  · rw [hupd]
    simp [getSkillLevel, hga', h2]
  · intro m hm0 hm1
    unfold clampLevel
    rw [max_eq_right hm0, min_eq_right hm1]
  · intro d hd hinr d' hd'
    injection hd with hd
    subst hd
    rw [hupd] at hd'
    simp only [Option.some.injEq] at hd'
    subst hd'
    intro p hp t ht
    rcases mem_setAssoc category l' data.skills p hp with h4 | h4
    · rw [h4] at ht
      rcases h3 t ht with h5 | h5
      · rw [h5]
        exact clampLevel_bounds newLevel
      · obtain ⟨k, hk⟩ := getAssoc_mem category data.skills catSkills hga
        exact hinr (k, catSkills) hk t h5
    · exact hinr p h4 t ht

theorem updateSkillLevel_clamps_witness :
    (updateSkillLevel fallbackState "tools" "Git" 150).1 = true ∧
    getSkillLevel (updateSkillLevel fallbackState "tools" "Git" 150).2
      "tools" "Git" = some 100 := by
  have h := updateSkillLevel_clamps fallbackState "tools" "Git" 150 (by decide)
  refine ⟨h.1, ?_⟩
  have h100 : clampLevel 150 = 100 := h.2.2.1
  rw [← h100]
  exact h.2.1

/-- C3: when the category is not a key of the dataset or no record in the
category carries the requested name, `updateSkillLevel` returns false and
the whole state — dataset and persisted store alike — is unchanged; being a
total Lean function it cannot raise. -/
theorem updateSkillLevel_notFound_noop (st : ManagerState)
    (category skillName : String) (newLevel : Int)
    (h : getSkillLevel st category skillName = none) :
    updateSkillLevel st category skillName newLevel = (false, st) := by
  rcases hsd : st.skillsData with _ | data
  · simp only [updateSkillLevel, hsd]
  rcases hga : getAssoc category data.skills with _ | catSkills
  · simp only [updateSkillLevel, hsd, hga]
  simp only [getSkillLevel, hsd, hga] at h
  rcases hfs : findSkill skillName catSkills with _ | s
  · simp only [updateSkillLevel, hsd, hga,
      updateFirstLevel_none skillName newLevel catSkills hfs]
  · rw [hfs] at h
    simp at h

theorem updateSkillLevel_notFound_noop_witness :
    updateSkillLevel fallbackState "databases" "Git" 50 = (false, fallbackState) :=
  updateSkillLevel_notFound_noop fallbackState "databases" "Git" 50 (by decide)

theorem yearsAddend_eq_getD (o : Option Nat) : yearsAddend o = o.getD 0 := by
  cases o with
  | none => rfl
  | some y =>
    cases y with
    | zero => rfl
    | succ n => simp [yearsAddend]

theorem round_half_near (x : ℚ) : |((⌊x + 1 / 2⌋ : Int) : ℚ) - x| ≤ 1 / 2 := by
  have h1 := Int.floor_le (x + 1 / 2)
  have h2 := Int.lt_floor_add_one (x + 1 / 2)
  rw [abs_le]
  constructor <;> linarith

/-- C6: the aggregation returns the record count across all categories, the
sum of the defined `years` fields (missing treated as 0), and, when there
is at least one record, an average equal to the mean of the levels rounded
to a nearest integer (`Math.round`, ties towards positive infinity): the
returned value differs from the exact mean by at most 1/2. -/
theorem computeStats_correct (data : SkillsData) :
    (computeStats data).totalSkills = (allSkills data.skills).length ∧
    (computeStats data).totalYears =
      ((allSkills data.skills).map (fun s => s.years.getD 0)).sum ∧
    (0 < (allSkills data.skills).length →
      ∃ r : Int, (computeStats data).averageProficiency = some r ∧
        r = ⌊((((allSkills data.skills).map (fun s => s.level) : List Int)).sum : ℚ) /
              ((allSkills data.skills).length : ℚ) + 1 / 2⌋ ∧
        |(r : ℚ) - ((((allSkills data.skills).map (fun s => s.level) : List Int)).sum : ℚ) /
              ((allSkills data.skills).length : ℚ)| ≤ 1 / 2) := by
  refine ⟨rfl, ?_, ?_⟩
  · have hfun : (fun s : Skill => yearsAddend s.years) =
        (fun s : Skill => s.years.getD 0) :=
      funext (fun s => yearsAddend_eq_getD s.years)
    simp only [computeStats]
    rw [hfun]
  · intro hpos
    have havg : (computeStats data).averageProficiency =
        some ⌊((((allSkills data.skills).map (fun s => s.level) : List Int)).sum : ℚ) /
              ((allSkills data.skills).length : ℚ) + 1 / 2⌋ := by
      simp only [computeStats]
      rw [if_pos hpos]
    exact ⟨_, havg, rfl, round_half_near _⟩

theorem computeStats_correct_witness :
    0 < (allSkills getFallbackSkillsData.skills).length ∧
    ∃ r : Int, (computeStats getFallbackSkillsData).averageProficiency = some r ∧
      r = ⌊((((allSkills getFallbackSkillsData.skills).map (fun s => s.level) : List Int)).sum : ℚ) /
            ((allSkills getFallbackSkillsData.skills).length : ℚ) + 1 / 2⌋ ∧
      |(r : ℚ) - ((((allSkills getFallbackSkillsData.skills).map (fun s => s.level) : List Int)).sum : ℚ) /
            ((allSkills getFallbackSkillsData.skills).length : ℚ)| ≤ 1 / 2 :=
  ⟨by decide, (computeStats_correct getFallbackSkillsData).2.2 (by decide)⟩

/-- C10: a record with a defined `years` of 0 is observationally identical
to one with no `years` field: the rendered element is the same string (no
years label is emitted, since the template tests truthiness), and the
record contributes 0 to `totalYears`, which is the sum of the per-record
`yearsAddend` contributions. -/
theorem zeroYears_equiv_absent (s : Skill) (h : s.years = some 0) :
    createSkillElement s = createSkillElement { s with years := none } ∧
    yearsFragment s.years = "" ∧
    yearsFragment (none : Option Nat) = "" ∧
    yearsAddend s.years = 0 ∧
    yearsAddend (none : Option Nat) = 0 ∧
    (∀ data : SkillsData, (computeStats data).totalYears =
      ((allSkills data.skills).map (fun t => yearsAddend t.years)).sum) := by
  refine ⟨?_, by rw [h]; rfl, rfl, by rw [h]; rfl, rfl, fun data => rfl⟩
  simp [createSkillElement, yearsFragment, h]

theorem zeroYears_equiv_absent_witness :
    createSkillElement zeroYearsSkill =
      createSkillElement { zeroYearsSkill with years := none } :=
  (zeroYears_equiv_absent zeroYearsSkill rfl).1

theorem strAppend_assoc (a b c : String) : (a ++ b) ++ c = a ++ (b ++ c) := by
  cases a with
  | mk x =>
    cases b with
    | mk y =>
      cases c with
      | mk z => exact congrArg String.mk (List.append_assoc x y z)

set_option maxRecDepth 100000 in
/-- C8 counterexample: a record whose `years` field is defined and equal to
0 renders no years label — the fragment does not contain "0 years", so the
claim fails for the defined value N = 0: the template's truthiness guard
drops the label entirely. -/
theorem createSkillElement_zeroYears_noLabel :
    zeroYearsSkill.years = some 0 ∧
    strContains (createSkillElement zeroYearsSkill) "0 years" = false ∧
    yearsFragment zeroYearsSkill.years = "" :=
  ⟨rfl, by decide, rfl⟩

set_option maxRecDepth 100000 in
/-- C8 (amended): for every record whose defined `years` value N is truthy
(N ≥ 1) the rendered fragment contains "1 year" (singular) when N = 1 and
"N years" (plural) otherwise — a record with years = 0 renders no label, see
the counterexample — and the record {name:"Git", level:90, years:4} renders
the tier label "Expert" and the years label "4 years". -/
theorem createSkillElement_years_label (s : Skill) (y : Nat)
    (hy : s.years = some y) (h1 : 1 ≤ y) :
    strContains (createSkillElement s)
      (toString y ++ (" " ++ (if y = 1 then "year" else "years"))) = true ∧
    (y = 1 → strContains (createSkillElement s) "1 year" = true) ∧
    (y ≠ 1 → strContains (createSkillElement s) (toString y ++ " years") = true) ∧
    strContains (createSkillElement gitSkill) "Expert" = true ∧
    strContains (createSkillElement gitSkill) "4 years" = true := by
  have hy0 : ¬ y = 0 := by omega
  have hmain : strContains (createSkillElement s)
      (toString y ++ (" " ++ (if y = 1 then "year" else "years"))) = true := by
    have hyf : yearsFragment s.years =
        "<span class=\"skill__years\">"
          ++ ((toString y ++ (" " ++ (if y = 1 then "year" else "years")))
          ++ "</span>") := by
      rw [hy]
      simp [yearsFragment, hy0]
    unfold createSkillElement
    rw [hyf]
    apply strContains_append_left
    rw [strAppend_assoc]
    apply strContains_append_left
    rw [strAppend_assoc]
    exact strContains_self_append _ _
  refine ⟨hmain, ?_, ?_, by decide, by decide⟩
  · intro hone
    subst hone
    have hlit : (toString (1 : Nat) ++ (" " ++ (if (1 : Nat) = 1 then "year" else "years")))
        = "1 year" := rfl
    rw [hlit] at hmain
    exact hmain
  · intro hne
    have hlit : (" " ++ (if y = 1 then "year" else "years") : String) = " years" := by
      rw [if_neg hne]
      rfl
    rw [hlit] at hmain
    exact hmain

theorem createSkillElement_years_label_witness :
    dockerSkill.years = some 2 ∧
    strContains (createSkillElement dockerSkill) (toString 2 ++ " years") = true := by
  have h := createSkillElement_years_label dockerSkill 2 rfl (by decide)
  exact ⟨rfl, h.2.2.1 (by decide)⟩
